import Mathlib

/-
Verification development for the Checkers repository (board.js, rules.js,
checker.js, boardEvent.js).  The JavaScript state is embedded shallowly:

  * a Checker object is a heap entry (a Nat id mapped to its PieceData,
    mirroring the mutable fields color, isKing, row, col of checker.js);
  * Board.square is an association list from (row, col) to the id of the
    checker stored there (a missing key is an empty cell, like the deleted
    slots of the JS array);
  * event dispatch is modelled by returning the list of dispatched events;
    each event carries a snapshot of the checker's fields at the moment of
    dispatch, which is what a synchronous handler observes.

Calling a board method with an id that has no heap entry corresponds to
passing a value that is not a Checker object; the source never does this,
and those branches are totalised as no-ops.  The rules functions are
translated from rules.js (the working implementation; the copy of the jump
logic inside board.js is the broken, unreachable one).  The recursive jump
search is written with explicit fuel; termination of the source recursion
is itself one of the verified facts (fuel beyond the number of occupied
squares does not change the result).
-/

namespace Checkers

/-- Association-list lookup: the value of the first entry whose key matches. -/
def lookupA {κ ν : Type} [DecidableEq κ] : List (κ × ν) → κ → Option ν
  | [], _ => none
  | e :: rest, k => if e.1 = k then some e.2 else lookupA rest k

/-- Association-list erase: drop every entry with the given key
(JS delete of an object slot). -/
def eraseA {κ ν : Type} [DecidableEq κ] (k : κ) : List (κ × ν) → List (κ × ν)
  | [] => []
  | e :: rest => if e.1 = k then eraseA k rest else e :: eraseA k rest

/-- Association-list update: bind the key to the value, dropping any old
binding (JS assignment to an object slot). -/
def setA {κ ν : Type} [DecidableEq κ] (k : κ) (v : ν) (l : List (κ × ν)) :
    List (κ × ν) :=
  (k, v) :: eraseA k l

/-- A board location, (row, column) as JS numbers. -/
abbrev Loc := Int × Int

/-- Checker colors, from checker.js (color must be "red" or "black"). -/
inductive Color where
  | red
  | black
deriving DecidableEq, Repr

/-- The mutable fields of a Checker object from checker.js. -/
structure PieceData where
  color : Color
  isKing : Bool
  row : Int
  col : Int
deriving DecidableEq, Repr

/-- One jump record built inside rules.js validJumpsFor:
the captured (killed) square and the landing square. -/
structure Jump where
  killedRow : Int
  killedCol : Int
  row : Int
  col : Int
deriving DecidableEq, Repr

/-- One entry of the remove list built by rules.js collapseJumpSequence.
In JS the color and isKing fields are read off the checker found at the
captured square; an Option models the undefined that a read on a missing
checker would give (never hit on well-formed boards). -/
structure RemovedEntry where
  row : Int
  col : Int
  color : Option Color
  isKing : Option Bool
deriving DecidableEq, Repr

/-- A move candidate of rules.js validMovesFor: destination plus the
ordered list of captured squares. -/
structure MoveCand where
  to_row : Int
  to_col : Int
  remove : List RemovedEntry
deriving DecidableEq, Repr

/-- The success value of rules.js makeMove. -/
structure MoveResult where
  from_row : Int
  from_col : Int
  to_row : Int
  to_col : Int
  made_king : Bool
  removed : List RemovedEntry
deriving DecidableEq, Repr

/-- A dispatched BoardEvent.  Each constructor carries the fields of the
details object; the PieceData argument is the snapshot of the checker's
fields at the moment the event is dispatched. -/
inductive BEvent where
  | addE (snap : PieceData) (row col : Int)
  | removeE (snap : PieceData) (row col : Int)
  | moveE (snap : PieceData) (fromRow fromCol toRow toCol : Int)
  | promoteE (snap : PieceData)
deriving DecidableEq, Repr

/-- The Board state of board.js: the immutable size, the square array
(grid) and the heap of Checker objects. -/
structure Board where
  boardSize : Int
  grid : List (Loc × Nat)
  heap : List (Nat × PieceData)
deriving DecidableEq, Repr

/-- board.js isValidLocation: false iff a coordinate falls outside
the range zero to boardSize minus one. -/
def Board.isValidLocation (b : Board) (row col : Int) : Bool :=
  !(decide (row < 0) || decide (col < 0) ||
    decide (row ≥ b.boardSize) || decide (col ≥ b.boardSize))

/-- board.js getCheckerAt: the checker at the square when the location is
valid; out of bounds the JS function returns undefined (none). -/
def Board.getCheckerAt (b : Board) (row col : Int) : Option Nat :=
  if b.isValidLocation row col then lookupA b.grid (row, col) else none

/-- board.js isEmptyLocation: true iff getCheckerAt gives nothing
(out-of-bounds locations therefore read as empty). -/
def Board.isEmptyLocation (b : Board) (row col : Int) : Bool :=
  (b.getCheckerAt row col).isNone

/-- board.js checkRep body for one square: the checker stored at the
square has row and col fields equal to the square's coordinates. -/
def pieceEntryOK (heap : List (Nat × PieceData)) (e : Loc × Nat) : Bool :=
  match lookupA heap e.2 with
  | some p => decide (p.row = e.1.1) && decide (p.col = e.1.2)
  | none => false

/-- board.js checkRep: the representation invariant asserted after every
mutation (every occupied square's checker records that square). -/
def Board.checkRepB (b : Board) : Bool :=
  b.grid.all (pieceEntryOK b.heap)

/-- board.js canBeKing: red promotes on the last row, black on row zero;
the checker's current king status is never consulted. -/
def Board.canBeKing (b : Board) (checker : PieceData) (row col : Int) : Bool :=
  if checker.color = Color.red then decide (row = b.boardSize - 1)
  else decide (row = 0)

/-- board.js promote: set isKing and dispatch a promote event (the
snapshot is taken at dispatch, after isKing is set). -/
def Board.promote (b : Board) (pid : Nat) : Board × List BEvent :=
  match lookupA b.heap pid with
  | none => (b, [])
  | some p =>
      let p' : PieceData := { p with isKing := true }
      ({ b with heap := setA pid p' b.heap }, [BEvent.promoteE p'])

/-- board.js add: when the target square reads empty, write the checker's
row and col, store it in the square, and dispatch an add event.  No check
that the checker is not already on the board is performed. -/
def Board.add (b : Board) (pid : Nat) (row col : Int) : Board × List BEvent :=
  if b.isEmptyLocation row col then
    match lookupA b.heap pid with
    | none => (b, [])
    | some p =>
        let p' : PieceData := { p with row := row, col := col }
        ({ b with heap := setA pid p' b.heap,
                  grid := setA (row, col) pid b.grid },
         [BEvent.addE p' row col])
  else (b, [])

/-- board.js moveTo: when the target reads empty, delete the source square
(the one recorded on the checker), store the checker at the target, run the
promotion check and (inside promote) dispatch the promote event before the
checker's row and col are overwritten, then update row and col and dispatch
the move event. -/
def Board.moveTo (b : Board) (pid : Nat) (toRow toCol : Int) :
    Board × List BEvent :=
  if b.isEmptyLocation toRow toCol then
    match lookupA b.heap pid with
    | none => (b, [])
    | some p =>
        let fromRow := p.row
        let fromCol := p.col
        let b1 : Board :=
          { b with grid := setA (toRow, toCol) pid
                             (eraseA (fromRow, fromCol) b.grid) }
        let pr := if b1.canBeKing p toRow toCol then b1.promote pid
                  else (b1, [])
        let pcur := (lookupA pr.1.heap pid).getD p
        let pFinal : PieceData := { pcur with row := toRow, col := toCol }
        let b3 : Board := { pr.1 with heap := setA pid pFinal pr.1.heap }
        (b3, pr.2 ++ [BEvent.moveE pFinal fromRow fromCol toRow toCol])
  else (b, [])

/-- board.js remove: delete the square recorded on the checker and
dispatch a remove event (no presence check is made). -/
def Board.remove (b : Board) (pid : Nat) : Board × List BEvent :=
  match lookupA b.heap pid with
  | none => (b, [])
  | some p =>
      ({ b with grid := eraseA (p.row, p.col) b.grid },
       [BEvent.removeE p p.row p.col])

/-- The checker object found at a square: getCheckerAt followed by reading
the object's fields off the heap. -/
def pieceDataAt (b : Board) (row col : Int) : Option PieceData :=
  match b.getCheckerAt row col with
  | none => none
  | some qid => lookupA b.heap qid

/-- rules.js isValidJump: the conjunction of the early-return guards, in
source order (valid target, empty target, no backward jump for non-kings,
a two-by-two diagonal, an occupied midpoint, opposing color at the
midpoint). -/
def isValidJump (b : Board) (checker : PieceData)
    (fromRow fromCol toRow toCol playerDirection : Int) : Bool :=
  b.isValidLocation toRow toCol
  && b.isEmptyLocation toRow toCol
  && !(decide ((toRow - fromRow) * playerDirection < 0) && !checker.isKing)
  && decide ((toRow - fromRow).natAbs = 2)
  && decide ((toCol - fromCol).natAbs = 2)
  && !(b.isEmptyLocation ((toRow + fromRow) / 2) ((toCol + fromCol) / 2))
  && !(decide ((pieceDataAt b ((toRow + fromRow) / 2)
        ((toCol + fromCol) / 2)).map PieceData.color = some checker.color))

/-- rules.js alreadyJumpedPiece: whether the square already appears among
the killed squares of the accumulated jump sequence. -/
def alreadyJumpedPiece (jumpSeq : List Jump) (row col : Int) : Bool :=
  jumpSeq.any (fun j =>
    decide (col = j.killedCol) && decide (row = j.killedRow))

/-- rules.js validJumpsFor candidate landings: the four two-cell
diagonals from the current square, in source order. -/
def possibleDestinations (curRow curCol : Int) : List (Int × Int) :=
  [(curRow + 2, curCol + 2), (curRow + 2, curCol - 2),
   (curRow - 2, curCol + 2), (curRow - 2, curCol - 2)]

/-- rules.js validJumpsFor, with an explicit fuel argument for the
recursion.  For each valid landing whose captured square is new, it emits
every chain returned by the recursive call from the landing (each already
carries the accumulated jump sequence) followed by the terminal chain that
stops at this landing.  Fuel beyond the number of occupied squares does
not change the result (proved below), so the source recursion, which has
no fuel, is total. -/
def validJumpsForF (b : Board) (checker : PieceData) (playerDirection : Int) :
    Nat → List Jump → Int → Int → List (List Jump)
  | 0, _, _, _ => []
  | fuel + 1, jumpSeq, curRow, curCol =>
    ((possibleDestinations curRow curCol).map (fun d =>
      if isValidJump b checker curRow curCol d.1 d.2 playerDirection then
        let jumped : Jump :=
          ⟨(curRow + d.1) / 2, (curCol + d.2) / 2, d.1, d.2⟩
        if alreadyJumpedPiece jumpSeq jumped.killedRow jumped.killedCol then
          []
        else
          validJumpsForF b checker playerDirection fuel
            (jumpSeq ++ [jumped]) d.1 d.2
          ++ [jumpSeq ++ [jumped]]
      else [])).flatten

/-- rules.js validJumpsFor at sufficient fuel (one more than the number of
occupied squares, which bounds the recursion depth). -/
def validJumpsFor (b : Board) (checker : PieceData) (playerDirection : Int)
    (jumpSeq : List Jump) (curRow curCol : Int) : List (List Jump) :=
  validJumpsForF b checker playerDirection (b.grid.length + 1)
    jumpSeq curRow curCol

/-- rules.js collapseJumpSequence: destination is the last landing of the
chain; the remove list records, in chain order, each killed square with the
color and king flag of the checker found there on the current board. -/
def collapseJumpSequence (b : Board) (jumpSequence : List Jump) : MoveCand :=
  let last := jumpSequence.getLast?.getD ⟨0, 0, 0, 0⟩
  { to_row := last.row
    to_col := last.col
    remove := jumpSequence.map (fun j =>
      { row := j.killedRow
        col := j.killedCol
        color := (pieceDataAt b j.killedRow j.killedCol).map PieceData.color
        isKing := (pieceDataAt b j.killedRow j.killedCol).map PieceData.isKing }) }

/-- rules.js validMovesFor: forward simple steps (column offsets minus one
and plus one), then backward simple steps for kings, then the collapsed
jump sequences, in source order. -/
def validMovesFor (b : Board) (checker : PieceData) (playerDirection : Int) :
    List MoveCand :=
  let fwd := ([-1, 1] : List Int).filterMap (fun i =>
    if b.isValidLocation (checker.row + playerDirection) (checker.col + i)
        && b.isEmptyLocation (checker.row + playerDirection) (checker.col + i)
    then some { to_row := checker.row + playerDirection,
                to_col := checker.col + i, remove := [] }
    else none)
  let bwd := ([-1, 1] : List Int).filterMap (fun i =>
    if b.isValidLocation (checker.row - playerDirection) (checker.col + i)
        && b.isEmptyLocation (checker.row - playerDirection) (checker.col + i)
        && checker.isKing
    then some { to_row := checker.row - playerDirection,
                to_col := checker.col + i, remove := [] }
    else none)
  let jumps := (validJumpsFor b checker playerDirection []
      checker.row checker.col).map (collapseJumpSequence b)
  fwd ++ bwd ++ jumps

/-- rules.js ramificationsOfMove: reject when the checker's direction is
not the turn's direction, otherwise return the first valid move whose
destination matches the claimed one. -/
def ramificationsOfMove (b : Board) (checker : PieceData)
    (turnDirection playerDirection toRow toCol : Int) : Option MoveCand :=
  if playerDirection ≠ turnDirection then none
  else (validMovesFor b checker playerDirection).find? (fun m =>
    decide (m.to_col = toCol) && decide (m.to_row = toRow))

/-- The removal loop of rules.js makeMove: for each entry of the remove
list, in order, look up the checker at that square and remove it from the
board, accumulating the dispatched events. -/
def removeDeadCheckers (b : Board) : List RemovedEntry → Board × List BEvent
  | [] => (b, [])
  | entry :: rest =>
    match b.getCheckerAt entry.row entry.col with
    | none => removeDeadCheckers b rest
    | some qid =>
        let r := b.remove qid
        let rest' := removeDeadCheckers r.1 rest
        (rest'.1, r.2 ++ rest'.2)

/-- rules.js makeMove: compute the ramifications (null means an invalid
move and no mutation), remember the origin, move the piece on the board,
compute made king from the king flag before and after the move, remove the
captured checkers in order, and return the summary together with the final
board and the events dispatched along the way. -/
def makeMove (b : Board) (pid : Nat)
    (turnDirection playerDirection toRow toCol : Int) :
    Option MoveResult × Board × List BEvent :=
  match lookupA b.heap pid with
  | none => (none, b, [])
  | some p =>
    match ramificationsOfMove b p turnDirection playerDirection toRow toCol with
    | none => (none, b, [])
    | some ram =>
      let wasKingBefore := p.isKing
      let fromCol := p.col
      let fromRow := p.row
      let mv := b.moveTo pid ram.to_row ram.to_col
      let madeKing := !wasKingBefore
        && (((lookupA mv.1.heap pid).map PieceData.isKing).getD false)
      let fin := removeDeadCheckers mv.1 ram.remove
      (some { from_row := fromRow, from_col := fromCol,
              to_row := ram.to_row, to_col := ram.to_col,
              made_king := madeKing, removed := ram.remove },
       fin.1, mv.2 ++ fin.2)

/-- The pair identifying the square captured by a jump. -/
def killedSquare (j : Jump) : Loc := (j.killedRow, j.killedCol)

/-- The count of occupied squares not yet captured along the accumulated
jump sequence: the measure that shrinks at every recursive call of
validJumpsFor. -/
def remainingTargets (b : Board) (jumpSeq : List Jump) : Nat :=
  (b.grid.filter (fun e =>
    !(alreadyJumpedPiece jumpSeq e.1.1 e.1.2))).length

/-- Whether some square of the board holds the given checker. -/
def onBoardB (b : Board) (pid : Nat) : Bool :=
  b.grid.any (fun e => decide (e.2 = pid))

/-- One board mutation of the kind quantified over by the representation
invariant property: an add, moveTo or remove call. -/
inductive BOp where
  | addOp (pid : Nat) (row col : Int)
  | moveOp (pid : Nat) (row col : Int)
  | removeOp (pid : Nat)
deriving DecidableEq, Repr

/-- Apply one board mutation, discarding the dispatched events. -/
def applyOp (b : Board) : BOp → Board
  | .addOp pid row col => (b.add pid row col).1
  | .moveOp pid row col => (b.moveTo pid row col).1
  | .removeOp pid => (b.remove pid).1

/-- Apply a sequence of board mutations in order. -/
def applyOps (b : Board) : List BOp → Board
  | [] => b
  | op :: rest => applyOps (applyOp b op) rest

/-- The preconditions exactly as the claim states them: target empty and
in bounds for add and moveTo, checker currently on the board for moveTo
and remove. -/
def claimPreB (b : Board) : BOp → Bool
  | .addOp _ row col =>
      b.isValidLocation row col && b.isEmptyLocation row col
  | .moveOp pid row col =>
      b.isValidLocation row col && b.isEmptyLocation row col && onBoardB b pid
  | .removeOp pid => onBoardB b pid

/-- The preconditions as the source documents them: additionally, add
requires the checker to be not currently on the board. -/
def fullPreB (b : Board) (op : BOp) : Bool :=
  claimPreB b op &&
    (match op with
     | .addOp pid _ _ => !onBoardB b pid
     | _ => true)

/-- Every call of the sequence meets the given precondition on the board
state it is applied to. -/
def opsOkB (pre : Board → BOp → Bool) : Board → List BOp → Bool
  | _, [] => true
  | b, op :: rest => pre b op && opsOkB pre (applyOp b op) rest

/-- Modelled from the spec: the spec requires pieceAt to fail with an
OutOfBounds error outside the board and to return empty (not an error) for
an in-bounds empty cell.  This three-way result type expresses that
contract; board.js getCheckerAt has no error outcome to compare against,
which is what the counterexample for the bounds claim exhibits. -/
inductive PieceAtSpecResult where
  | outOfBounds
  | found (pid : Nat)
  | empty
deriving DecidableEq, Repr

/-- Modelled from the spec: pieceAt with the OutOfBounds failure the spec
asks for. -/
def pieceAtSpec (b : Board) (row col : Int) : PieceAtSpecResult :=
  if 0 ≤ row ∧ 0 ≤ col ∧ row < b.boardSize ∧ col < b.boardSize then
    match lookupA b.grid (row, col) with
    | some pid => .found pid
    | none => .empty
  else .outOfBounds

/-- A four-by-four board whose heap holds one red checker and whose grid
is still empty. -/
def cex1Board : Board :=
  ⟨4, [], [(0, ⟨Color.red, false, 0, 0⟩)]⟩

/-- A four-by-four board with one red checker placed at the origin
square. -/
def board7 : Board :=
  ⟨4, [((0, 0), 0)], [(0, ⟨Color.red, false, 0, 0⟩)]⟩

/-- An eight-by-eight board: a black checker (id 0) at row 2 column 3 and
a red checker (id 1) at row 3 column 4. -/
def board8 : Board :=
  ⟨8, [((2, 3), 0), ((3, 4), 1)],
   [(0, ⟨Color.black, false, 2, 3⟩), (1, ⟨Color.red, false, 3, 4⟩)]⟩

/-- An eight-by-eight board allowing a double jump: a black checker (id 0)
at row 2 column 3 and red checkers at row 3 column 4 and row 5 column 6. -/
def board8b : Board :=
  ⟨8, [((2, 3), 0), ((3, 4), 1), ((5, 6), 2)],
   [(0, ⟨Color.black, false, 2, 3⟩), (1, ⟨Color.red, false, 3, 4⟩),
    (2, ⟨Color.red, false, 5, 6⟩)]⟩

/-- The black checker of board8 and board8b. -/
def pieceB : PieceData := ⟨Color.black, false, 2, 3⟩

/-- A four-by-four board with a red non-king checker one step short of the
promotion row. -/
def board9 : Board :=
  ⟨4, [((2, 1), 0)], [(0, ⟨Color.red, false, 2, 1⟩)]⟩

/-- A four-by-four board with a red checker that is already a king, one
step short of the promotion row. -/
def board10 : Board :=
  ⟨4, [((2, 1), 0)], [(0, ⟨Color.red, true, 2, 1⟩)]⟩

/-- The move result returned for the jump from (2, 3) to (4, 5) on
board8. -/
def res3 : MoveResult :=
  ⟨2, 3, 4, 5, false, [⟨3, 4, some Color.red, some false⟩]⟩

/-- The board after that jump: the black checker relocated to (4, 5) and
the captured red checker removed from the grid (its heap object remains,
as in JS, unreferenced by any square). -/
def bAfter3 : Board :=
  ⟨8, [((4, 5), 0)],
   [(0, ⟨Color.black, false, 4, 5⟩), (1, ⟨Color.red, false, 3, 4⟩)]⟩

/-- The events dispatched by that jump: the move event, then the remove
event for the captured checker. -/
def evs3 : List BEvent :=
  [BEvent.moveE ⟨Color.black, false, 4, 5⟩ 2 3 4 5,
   BEvent.removeE ⟨Color.red, false, 3, 4⟩ 3 4]

/-- The snapshot a promote event carries: isKing set, position fields
unchanged. -/
def promoteSnap (p : PieceData) : PieceData := { p with isKing := true }

/-- The checker's fields at the end of a moveTo call: possibly promoted,
and relocated to the destination square. -/
def finalSnap (b : Board) (p : PieceData) (toR toC : Int) : PieceData :=
  ⟨p.color, if b.canBeKing p toR toC then true else p.isKing, toR, toC⟩

/-- Looking a key up right after binding it yields the new value. -/
theorem lookupA_setA_self {κ ν : Type} [DecidableEq κ] (k : κ) (v : ν)
    (l : List (κ × ν)) : lookupA (setA k v l) k = some v := by
  simp [setA, lookupA]

/-- Erasing one key leaves lookups of other keys unchanged. -/
theorem lookupA_eraseA_ne {κ ν : Type} [DecidableEq κ] (k k' : κ)
    (l : List (κ × ν)) (h : k' ≠ k) :
    lookupA (eraseA k l) k' = lookupA l k' := by
  induction l with
  | nil => rfl
  | cons a t ih =>
      by_cases hk : a.1 = k
      · rw [show eraseA k (a :: t) = eraseA k t by simp [eraseA, hk]]
        rw [ih]
        have : a.1 ≠ k' := by rw [hk]; exact fun e => h e.symm
        simp [lookupA, this]
      · rw [show eraseA k (a :: t) = a :: eraseA k t by simp [eraseA, hk]]
        by_cases ha : a.1 = k'
        · simp [lookupA, ha]
        · simp [lookupA, ha, ih]

/-- Binding one key leaves lookups of other keys unchanged. -/
theorem lookupA_setA_ne {κ ν : Type} [DecidableEq κ] (k k' : κ) (v : ν)
    (l : List (κ × ν)) (h : k' ≠ k) :
    lookupA (setA k v l) k' = lookupA l k' := by
  have : k ≠ k' := fun e => h e.symm
  simp [setA, lookupA, this, lookupA_eraseA_ne k k' l h]

/-- Every entry surviving an erase was an entry with a different key. -/
theorem mem_eraseA {κ ν : Type} [DecidableEq κ] (k : κ) (l : List (κ × ν))
    (e : κ × ν) (h : e ∈ eraseA k l) : e ∈ l ∧ e.1 ≠ k := by
  induction l with
  | nil => simp [eraseA] at h
  | cons a t ih =>
      by_cases hk : a.1 = k
      · rw [show eraseA k (a :: t) = eraseA k t by simp [eraseA, hk]] at h
        exact ⟨List.mem_cons_of_mem _ (ih h).1, (ih h).2⟩
      · rw [show eraseA k (a :: t) = a :: eraseA k t by simp [eraseA, hk]] at h
        rcases List.mem_cons.mp h with rfl | h'
        · exact ⟨List.mem_cons_self _ _, hk⟩
        · exact ⟨List.mem_cons_of_mem _ (ih h').1, (ih h').2⟩

/-- A successful lookup comes from an entry of the list. -/
theorem lookupA_some_mem {κ ν : Type} [DecidableEq κ] {l : List (κ × ν)}
    {k : κ} {v : ν} (h : lookupA l k = some v) : (k, v) ∈ l := by
  induction l with
  | nil => simp [lookupA] at h
  | cons a t ih =>
      by_cases hk : a.1 = k
      · rw [show lookupA (a :: t) k = some a.2 by simp [lookupA, hk]] at h
        have : a = (k, v) := by
          cases a
          simp only [Option.some.injEq] at h
          simp_all
        exact this ▸ List.mem_cons_self _ _
      · rw [show lookupA (a :: t) k = lookupA t k by simp [lookupA, hk]] at h
        exact List.mem_cons_of_mem _ (ih h)

/-- The representation invariant holds iff it holds of every grid entry. -/
theorem checkRepB_iff (b : Board) :
    b.checkRepB = true ↔ ∀ e ∈ b.grid, pieceEntryOK b.heap e = true := by
  simp [Board.checkRepB, List.all_eq_true]

/-- Unfolding the per-square invariant into a heap lookup. -/
theorem pieceEntryOK_iff (heap : List (Nat × PieceData)) (e : Loc × Nat) :
    pieceEntryOK heap e = true ↔
      ∃ p, lookupA heap e.2 = some p ∧ p.row = e.1.1 ∧ p.col = e.1.2 := by
  unfold pieceEntryOK
  cases h : lookupA heap e.2 with
  | none => simp
  | some p => simp

/-- A checker absent from the board occupies no grid entry. -/
theorem onBoardB_false_forall (b : Board) (pid : Nat)
    (h : onBoardB b pid = false) : ∀ e ∈ b.grid, e.2 ≠ pid := by
  intro e he
  by_contra hc
  rw [show onBoardB b pid = true from by
    simp only [onBoardB, List.any_eq_true]
    exact ⟨e, he, by simp [hc]⟩] at h
  simp at h

/-- canBeKing reads only the board size, so grid updates do not affect
it. -/
theorem canBeKing_grid_update (b : Board) (g : List (Loc × Nat))
    (p : PieceData) (r c : Int) :
    Board.canBeKing ⟨b.boardSize, g, b.heap⟩ p r c = b.canBeKing p r c := rfl

/-- Shape of a successful moveTo: the grid moves the checker's binding to
the destination, the heap rebinds the checker to its final fields, and the
events are the optional promote event (dispatched first, with the origin
coordinates still on the checker) followed by the move event carrying the
final snapshot. -/
theorem moveTo_shape (b : Board) (pid : Nat) (toR toC : Int) (p : PieceData)
    (he : b.isEmptyLocation toR toC = true)
    (hp : lookupA b.heap pid = some p) :
    (b.moveTo pid toR toC).1 =
      ⟨b.boardSize,
       setA (toR, toC) pid (eraseA (p.row, p.col) b.grid),
       setA pid (finalSnap b p toR toC)
         (if b.canBeKing p toR toC then setA pid (promoteSnap p) b.heap
          else b.heap)⟩
    ∧ (b.moveTo pid toR toC).2 =
        (if b.canBeKing p toR toC then [BEvent.promoteE (promoteSnap p)]
         else [])
        ++ [BEvent.moveE (finalSnap b p toR toC) p.row p.col toR toC] := by
  unfold Board.moveTo
  by_cases hk : b.canBeKing p toR toC
  · simp [he, hp, canBeKing_grid_update, hk, Board.promote, lookupA_setA_self,
      promoteSnap, finalSnap]
  · simp [he, hp, canBeKing_grid_update, hk, finalSnap]

/-- The add call preserves the representation invariant when the checker
is not already on the board. -/
theorem add_preserves_checkRep (b : Board) (pid : Nat) (r c : Int)
    (hrep : b.checkRepB = true) (hnot : onBoardB b pid = false) :
    ((b.add pid r c).1).checkRepB = true := by
  unfold Board.add
  by_cases he : b.isEmptyLocation r c
  · cases hp : lookupA b.heap pid with
    | none => simpa [he] using hrep
    | some p =>
        simp only [he, if_true, hp]
        rw [checkRepB_iff]
        intro e hme
        rcases List.mem_cons.mp hme with rfl | hme'
        · rw [pieceEntryOK_iff]
          exact ⟨{ p with row := r, col := c }, lookupA_setA_self _ _ _,
            rfl, rfl⟩
        · have hmem := mem_eraseA _ _ _ hme'
          have hne : e.2 ≠ pid := onBoardB_false_forall b pid hnot e hmem.1
          have hold : pieceEntryOK b.heap e = true :=
            (checkRepB_iff b).mp hrep e hmem.1
          rw [pieceEntryOK_iff] at hold ⊢
          rcases hold with ⟨q, hq, hq1, hq2⟩
          exact ⟨q, by rw [lookupA_setA_ne _ _ _ _ hne]; exact hq, hq1, hq2⟩
  · simpa [he] using hrep

/-- The moveTo call preserves the representation invariant. -/
theorem moveTo_preserves_checkRep (b : Board) (pid : Nat) (toR toC : Int)
    (hrep : b.checkRepB = true) :
    ((b.moveTo pid toR toC).1).checkRepB = true := by
  by_cases he : b.isEmptyLocation toR toC
  · cases hp : lookupA b.heap pid with
    | none => unfold Board.moveTo; simpa [he, hp] using hrep
    | some p =>
        rw [(moveTo_shape b pid toR toC p he hp).1, checkRepB_iff]
        intro e hme
        rcases List.mem_cons.mp hme with rfl | hme'
        · rw [pieceEntryOK_iff]
          refine ⟨_, lookupA_setA_self _ _ _, rfl, rfl⟩
        · have hmem1 := mem_eraseA _ _ _ hme'
          have hmem2 := mem_eraseA _ _ _ hmem1.1
          have hold : pieceEntryOK b.heap e = true :=
            (checkRepB_iff b).mp hrep e hmem2.1
          rw [pieceEntryOK_iff] at hold
          rcases hold with ⟨q, hq, hq1, hq2⟩
          have hne : e.2 ≠ pid := by
            intro hcontra
            rw [hcontra, hp] at hq
            have hqp : p = q := by simpa using hq
            subst hqp
            exact hmem2.2 (Prod.ext hq1.symm hq2.symm)
          rw [pieceEntryOK_iff]
          refine ⟨q, ?_, hq1, hq2⟩
          rw [lookupA_setA_ne _ _ _ _ hne]
          by_cases hk : b.canBeKing p toR toC
          · simp only [hk, if_true]
            rw [lookupA_setA_ne _ _ _ _ hne]
            exact hq
          · simp only [hk, if_false]
            exact hq
  · unfold Board.moveTo; simpa [he] using hrep

/-- The remove call preserves the representation invariant. -/
theorem remove_preserves_checkRep (b : Board) (pid : Nat)
    (hrep : b.checkRepB = true) :
    ((b.remove pid).1).checkRepB = true := by
  unfold Board.remove
  cases hp : lookupA b.heap pid with
  | none => simpa using hrep
  | some p =>
      rw [checkRepB_iff]
      intro e hme
      have hmem := mem_eraseA _ _ _ hme
      exact (checkRepB_iff b).mp hrep e hmem.1

/-- Under the full source preconditions, every sequence of board
mutations preserves the representation invariant. -/
theorem applyOps_preserves_checkRep :
    ∀ (ops : List BOp) (b : Board), b.checkRepB = true →
      opsOkB fullPreB b ops = true → (applyOps b ops).checkRepB = true := by
  intro ops
  induction ops with
  | nil => intro b h _; simpa [applyOps] using h
  | cons op rest ih =>
      intro b h hok
      simp only [opsOkB, Bool.and_eq_true] at hok
      refine ih (applyOp b op) ?_ hok.2
      cases op with
      | addOp pid r c =>
          have hnot : onBoardB b pid = false := by
            have h1 := hok.1
            simp only [fullPreB, Bool.and_eq_true, Bool.not_eq_true'] at h1
            exact h1.2
          exact add_preserves_checkRep b pid r c h hnot
      | moveOp pid r c => exact moveTo_preserves_checkRep b pid r c h
      | removeOp pid => exact remove_preserves_checkRep b pid h

/-- C1, counterexample.  With only the preconditions the claim lists
(target cell empty and in bounds for add and moveTo, piece on the board
for moveTo and remove), the invariant fails: adding the same checker a
second time at a different empty square leaves the old grid entry pointing
at a checker whose row and col now name the new square, so after a
sequence whose every call meets the claim's preconditions, an occupied
cell holds a piece whose fields do not match the cell. -/
theorem C1_claim_counterexample :
    cex1Board.checkRepB = true
    ∧ opsOkB claimPreB cex1Board [BOp.addOp 0 0 0, BOp.addOp 0 1 1] = true
    ∧ (applyOps cex1Board
        [BOp.addOp 0 0 0, BOp.addOp 0 1 1]).checkRepB = false := by
  decide

/-- C1, amended.  If each add call additionally meets the precondition
stated in the source (the checker is not currently on the board), then
after any sequence of add, moveTo and remove calls meeting their
preconditions, every occupied cell holds a piece whose row and col fields
equal the cell's coordinates (the checkRep invariant of board.js). -/
theorem C1_repInvariant_amended (b : Board) (ops : List BOp)
    (h0 : b.checkRepB = true) (hpre : opsOkB fullPreB b ops = true) :
    (applyOps b ops).checkRepB = true :=
  applyOps_preserves_checkRep ops b h0 hpre

/-- C1 witness: a concrete add, moveTo, remove sequence meeting the full
preconditions keeps the invariant. -/
theorem C1_repInvariant_amended_witness :
    (applyOps cex1Board
      [BOp.addOp 0 0 0, BOp.moveOp 0 1 1, BOp.removeOp 0]).checkRepB
      = true :=
  C1_repInvariant_amended cex1Board
    [BOp.addOp 0 0 0, BOp.moveOp 0 1 1, BOp.removeOp 0]
    (by decide) (by decide)

/-- C7: the claim is right about the intended contract and the code is
wrong.  On a board holding checker 0 at the origin, add of that same
checker at the empty in-bounds square (1, 1) is not rejected: it mutates
the grid, dispatches an add event, and the board then fails its own
checkRep assertion (the stale entry at the origin names a checker whose
fields now read (1, 1)).  Rejecting an occupied target does work: adding
another checker onto the occupied origin is a no-op with no event. -/
theorem C7_add_rejection_evaluation :
    onBoardB board7 0 = true
    ∧ board7.isEmptyLocation 1 1 = true
    ∧ (board7.add 0 1 1).2 = [BEvent.addE ⟨Color.red, false, 1, 1⟩ 1 1]
    ∧ ((board7.add 0 1 1).1).grid = [((1, 1), 0), ((0, 0), 0)]
    ∧ ((board7.add 0 1 1).1).checkRepB = false
    ∧ board7.add 1 0 0 = (board7, []) := by
  decide

/-- C8, counterexample.  Where the spec-modelled pieceAt reports
OutOfBounds (row 9, column 9 of an eight-by-eight board), the code's
getCheckerAt returns the ordinary empty answer, indistinguishable from an
in-bounds empty cell such as (0, 0); and isEmptyLocation returns the plain
boolean true instead of reporting OutOfBounds. -/
theorem C8_outOfBounds_counterexample :
    pieceAtSpec board8 9 9 = PieceAtSpecResult.outOfBounds
    ∧ board8.getCheckerAt 9 9 = none
    ∧ board8.getCheckerAt 9 9 = board8.getCheckerAt 0 0
    ∧ board8.isEmptyLocation 9 9 = true := by
  decide

/-- C8, amended.  getCheckerAt returns empty (none) without signalling any
error both for out-of-bounds coordinates and for an in-bounds empty cell,
and isEmptyLocation likewise returns the ordinary boolean true in both
situations rather than reporting OutOfBounds. -/
theorem C8_bounds_amended (b : Board) (row col : Int) :
    (b.isValidLocation row col = false →
      b.getCheckerAt row col = none ∧ b.isEmptyLocation row col = true)
    ∧ (b.isValidLocation row col = true →
      lookupA b.grid (row, col) = none →
      b.getCheckerAt row col = none ∧ b.isEmptyLocation row col = true) := by
  refine ⟨fun h => ⟨?_, ?_⟩, fun h1 h2 => ⟨?_, ?_⟩⟩
  · simp [Board.getCheckerAt, h]
  · simp [Board.isEmptyLocation, Board.getCheckerAt, h]
  · simp [Board.getCheckerAt, h1, h2]
  · simp [Board.isEmptyLocation, Board.getCheckerAt, h1, h2]

/-- C8 witness: the out-of-bounds read on the concrete board. -/
theorem C8_bounds_amended_witness :
    board8.getCheckerAt 9 9 = none ∧ board8.isEmptyLocation 9 9 = true :=
  (C8_bounds_amended board8 9 9).1 (by decide)

/-- C9, counterexample.  Moving the red non-king checker from (2, 1) to
the promotion row of a four-by-four board dispatches the promote event
BEFORE the move event, and at that moment the checker's row and col still
hold the origin (2, 1), not the destination: the claim's ordering (promote
after move) and its assertion that every event is dispatched with the
piece already at the destination both fail. -/
theorem C9_event_order_counterexample :
    (board9.moveTo 0 3 1).2 =
      [BEvent.promoteE ⟨Color.red, true, 2, 1⟩,
       BEvent.moveE ⟨Color.red, true, 3, 1⟩ 2 1 3 1] := by
  decide

/-- C9, amended.  Every successful moveTo emits, when promotion occurs, a
promote event first, whose snapshot still carries the origin coordinates,
and then the move event with piece, fromRow, fromCol, toRow, toCol, whose
snapshot holds the destination in its row and col fields. -/
theorem C9_moveTo_events_amended (b : Board) (pid : Nat) (toR toC : Int)
    (p : PieceData)
    (hp : lookupA b.heap pid = some p)
    (he : b.isEmptyLocation toR toC = true) :
    (b.moveTo pid toR toC).2 =
      (if b.canBeKing p toR toC then [BEvent.promoteE (promoteSnap p)]
       else [])
      ++ [BEvent.moveE (finalSnap b p toR toC) p.row p.col toR toC]
    ∧ (promoteSnap p).row = p.row ∧ (promoteSnap p).col = p.col
    ∧ (finalSnap b p toR toC).row = toR
    ∧ (finalSnap b p toR toC).col = toC :=
  ⟨(moveTo_shape b pid toR toC p he hp).2, rfl, rfl, rfl, rfl⟩

/-- C9 witness: the amended event sequence on the concrete promotion
move. -/
theorem C9_moveTo_events_amended_witness :
    (board9.moveTo 0 3 1).2 =
      (if board9.canBeKing ⟨Color.red, false, 2, 1⟩ 3 1 then
        [BEvent.promoteE (promoteSnap ⟨Color.red, false, 2, 1⟩)]
       else [])
      ++ [BEvent.moveE (finalSnap board9 ⟨Color.red, false, 2, 1⟩ 3 1) 2 1 3 1]
    ∧ (promoteSnap (⟨Color.red, false, 2, 1⟩ : PieceData)).row = 2
    ∧ (promoteSnap (⟨Color.red, false, 2, 1⟩ : PieceData)).col = 1
    ∧ (finalSnap board9 ⟨Color.red, false, 2, 1⟩ 3 1).row = 3
    ∧ (finalSnap board9 ⟨Color.red, false, 2, 1⟩ 3 1).col = 1 :=
  C9_moveTo_events_amended board9 0 3 1 ⟨Color.red, false, 2, 1⟩
    (by decide) (by decide)

/-- C10: when the destination row is the promotion row for the piece's
color (last row for red, row zero for black) and the target is empty, the
promotion routine runs and a promote event is dispatched even though the
piece's isKing flag is already true (its snapshot equals the unchanged
piece), because canBeKing never consults the king status: with any value
of the isKing flag the promotion test still succeeds. -/
theorem C10_promotion_ignores_king_status (b : Board) (pid : Nat)
    (toR toC : Int) (p : PieceData)
    (hp : lookupA b.heap pid = some p)
    (hk : p.isKing = true)
    (he : b.isEmptyLocation toR toC = true)
    (hr : if p.color = Color.red then toR = b.boardSize - 1 else toR = 0) :
    BEvent.promoteE (promoteSnap p) ∈ (b.moveTo pid toR toC).2
    ∧ promoteSnap p = p
    ∧ ∀ k : Bool, b.canBeKing ⟨p.color, k, p.row, p.col⟩ toR toC = true := by
  have hcbk : b.canBeKing p toR toC = true := by
    unfold Board.canBeKing
    by_cases hc : p.color = Color.red
    · simp only [hc, if_true] at hr ⊢
      simp [hr]
    · simp only [hc, if_false] at hr ⊢
      simp [hr]
  refine ⟨?_, ?_, ?_⟩
  · rw [(moveTo_shape b pid toR toC p he hp).2]
    simp [hcbk]
  · cases p
    simp only [PieceData.mk.injEq] at hk ⊢
    simp_all [promoteSnap]
  · intro k
    unfold Board.canBeKing at hcbk ⊢
    exact hcbk

/-- C10 witness: the already-king red checker moving onto the promotion
row still triggers a promote event. -/
theorem alreadyJumpedPiece_append (s t : List Jump) (r c : Int) :
    alreadyJumpedPiece (s ++ t) r c
      = (alreadyJumpedPiece s r c || alreadyJumpedPiece t r c) := by
  simp [alreadyJumpedPiece, List.any_append]

/-- Filtering with a stronger predicate keeps at most as many elements. -/
theorem filter_length_mono {α : Type} (l : List α) (p q : α → Bool)
    (himp : ∀ x, q x = true → p x = true) :
    (l.filter q).length ≤ (l.filter p).length := by
  induction l with
  | nil => simp
  | cons a t ih =>
      cases hq : q a with
      | true =>
          rw [List.filter_cons_of_pos hq, List.filter_cons_of_pos (himp a hq)]
          simpa using ih
      | false =>
          rw [List.filter_cons_of_neg (by simp [hq])]
          cases hp : p a with
          | true =>
              rw [List.filter_cons_of_pos hp]
              exact le_trans ih (Nat.le_succ _)
          | false =>
              rw [List.filter_cons_of_neg (by simp [hp])]
              exact ih

/-- Filtering with a strictly stronger predicate (one kept element is
dropped) keeps strictly fewer elements. -/
theorem filter_length_lt {α : Type} (l : List α) (p q : α → Bool)
    (himp : ∀ x, q x = true → p x = true)
    (x : α) (hx : x ∈ l) (hpx : p x = true) (hqx : q x = false) :
    (l.filter q).length < (l.filter p).length := by
  induction l with
  | nil => simp at hx
  | cons a t ih =>
      rcases List.mem_cons.mp hx with rfl | hx'
      · rw [List.filter_cons_of_pos hpx, List.filter_cons_of_neg (by simp [hqx])]
        exact Nat.lt_succ_of_le (filter_length_mono t p q himp)
      · cases hq : q a with
        | true =>
            rw [List.filter_cons_of_pos hq,
              List.filter_cons_of_pos (himp a hq)]
            exact Nat.succ_lt_succ (ih hx')
        | false =>
            rw [List.filter_cons_of_neg (by simp [hq])]
            cases hp : p a with
            | true =>
                rw [List.filter_cons_of_pos hp]
                exact Nat.lt_succ_of_lt (ih hx')
            | false =>
                rw [List.filter_cons_of_neg (by simp [hp])]
                exact ih hx'

/-- Capturing one more occupied, not-yet-captured square strictly shrinks
the count of remaining targets. -/
theorem remainingTargets_decrease (b : Board) (seq : List Jump) (j : Jump)
    (hocc : ∃ qid, lookupA b.grid (j.killedRow, j.killedCol) = some qid)
    (hnew : alreadyJumpedPiece seq j.killedRow j.killedCol = false) :
    remainingTargets b (seq ++ [j]) < remainingTargets b seq := by
  obtain ⟨qid, hq⟩ := hocc
  have hmem : ((j.killedRow, j.killedCol), qid) ∈ b.grid := lookupA_some_mem hq
  unfold remainingTargets
  apply filter_length_lt b.grid _ _ ?_ ((j.killedRow, j.killedCol), qid) hmem
    ?_ ?_
  · intro x hx
    rw [alreadyJumpedPiece_append] at hx
    simp only [Bool.not_eq_true', Bool.or_eq_false_iff] at hx
    simp [hx.1]
  · simp [hnew]
  · rw [alreadyJumpedPiece_append]
    simp [alreadyJumpedPiece, hnew]

/-- The individual guards recovered from a successful isValidJump test. -/
theorem isValidJump_facts (b : Board) (checker : PieceData)
    (fromR fromC toR toC dir : Int)
    (h : isValidJump b checker fromR fromC toR toC dir = true) :
    b.isValidLocation toR toC = true
    ∧ b.isEmptyLocation toR toC = true
    ∧ b.isEmptyLocation ((toR + fromR) / 2) ((toC + fromC) / 2) = false := by
  simp only [isValidJump, Bool.and_eq_true, Bool.not_eq_true'] at h
  exact ⟨h.1.1.1.1.1.1, h.1.1.1.1.1.2, h.1.2⟩

/-- A square that does not read empty holds a checker in the grid. -/
theorem isEmptyLocation_false_lookup (b : Board) (r c : Int)
    (h : b.isEmptyLocation r c = false) :
    ∃ qid, lookupA b.grid (r, c) = some qid := by
  cases hg : b.getCheckerAt r c with
  | none =>
      rw [show b.isEmptyLocation r c = true from by
        simp [Board.isEmptyLocation, hg]] at h
      simp at h
  | some q =>
      unfold Board.getCheckerAt at hg
      by_cases hv : b.isValidLocation r c = true
      · rw [if_pos hv] at hg
        exact ⟨q, hg⟩
      · rw [if_neg hv] at hg
        simp at hg

/-- The midpoint of a successful jump is an occupied grid square (stated
in the orientation used by validJumpsFor). -/
theorem mid_occupied_of_isValidJump (b : Board) (checker : PieceData)
    (fromR fromC toR toC dir : Int)
    (h : isValidJump b checker fromR fromC toR toC dir = true) :
    ∃ qid, lookupA b.grid ((fromR + toR) / 2, (fromC + toC) / 2) = some qid := by
  have hf := (isValidJump_facts b checker fromR fromC toR toC dir h).2.2
  rw [Int.add_comm fromR toR, Int.add_comm fromC toC]
  exact isEmptyLocation_false_lookup b _ _ hf

/-- With no remaining capture target, the jump search returns no chain at
any fuel: every guard requires an occupied, not-yet-captured midpoint. -/
theorem validJumpsForF_zero (b : Board) (checker : PieceData) (dir : Int) :
    ∀ (m : Nat) (seq : List Jump) (curR curC : Int),
      remainingTargets b seq = 0 →
      validJumpsForF b checker dir m seq curR curC = [] := by
  intro m
  induction m with
  | zero => intro seq r c _; rfl
  | succ m ih =>
      intro seq r c h0
      show (List.map _ _).flatten = []
      rw [List.flatten_eq_nil_iff]
      intro x hx
      rcases List.mem_map.mp hx with ⟨d, _, rfl⟩
      by_cases hv : isValidJump b checker r c d.1 d.2 dir = true
      · by_cases haj :
          alreadyJumpedPiece seq ((r + d.1) / 2) ((c + d.2) / 2) = true
        · simp [hv, haj]
        · exfalso
          rw [Bool.not_eq_true] at haj
          obtain ⟨qid, hq⟩ :=
            mid_occupied_of_isValidJump b checker r c d.1 d.2 dir hv
          have hmem : (((r + d.1) / 2, (c + d.2) / 2), qid) ∈ b.grid :=
            lookupA_some_mem hq
          have hfil : (((r + d.1) / 2, (c + d.2) / 2), qid)
              ∈ b.grid.filter (fun e =>
                !(alreadyJumpedPiece seq e.1.1 e.1.2)) := by
            rw [List.mem_filter]
            exact ⟨hmem, by simp [haj]⟩
          unfold remainingTargets at h0
          rw [List.length_eq_zero] at h0
          rw [h0] at hfil
          simp at hfil
      · simp [hv]

/-- The remaining-target count never exceeds the number of occupied
squares. -/
theorem remainingTargets_le_length (b : Board) (seq : List Jump) :
    remainingTargets b seq ≤ b.grid.length :=
  List.length_filter_le _ _

/-- The jump search stabilizes: any two fuels at least the remaining
target count give the same result. -/
theorem validJumpsForF_stable (b : Board) (checker : PieceData) (dir : Int) :
    ∀ (n m : Nat) (seq : List Jump) (curR curC : Int),
      remainingTargets b seq ≤ n → remainingTargets b seq ≤ m →
      validJumpsForF b checker dir n seq curR curC
        = validJumpsForF b checker dir m seq curR curC := by
  intro n
  induction n with
  | zero =>
      intro m seq r c hn _
      have h0 : remainingTargets b seq = 0 := Nat.le_zero.mp hn
      rw [validJumpsForF_zero b checker dir 0 seq r c h0,
        validJumpsForF_zero b checker dir m seq r c h0]
  | succ n ih =>
      intro m seq r c hn hm
      by_cases h0 : remainingTargets b seq = 0
      · rw [validJumpsForF_zero b checker dir (n + 1) seq r c h0,
          validJumpsForF_zero b checker dir m seq r c h0]
      · obtain ⟨m', rfl⟩ : ∃ m', m = m' + 1 := ⟨m - 1, by omega⟩
        show (List.map _ _).flatten = (List.map _ _).flatten
        congr 1
        apply List.map_congr_left
        intro d _
        by_cases hv : isValidJump b checker r c d.1 d.2 dir = true
        · by_cases haj :
            alreadyJumpedPiece seq ((r + d.1) / 2) ((c + d.2) / 2) = true
          · simp [hv, haj]
          · rw [Bool.not_eq_true] at haj
            simp only [hv, if_true, haj, Bool.false_eq_true, if_false]
            congr 1
            have hdec : remainingTargets b
                (seq ++ [⟨(r + d.1) / 2, (c + d.2) / 2, d.1, d.2⟩])
                < remainingTargets b seq :=
              remainingTargets_decrease b seq _
                (mid_occupied_of_isValidJump b checker r c d.1 d.2 dir hv)
                haj
            exact ih m' _ d.1 d.2 (by omega) (by omega)
        · simp [hv]

/-- Every chain the jump search returns extends the accumulated sequence
by a nonempty run of jumps, each landing on a square that reads empty and
each capturing a square that does not read empty. -/
theorem validJumpsForF_shape (b : Board) (checker : PieceData) (dir : Int) :
    ∀ (fuel : Nat) (seq : List Jump) (curR curC : Int) (chain : List Jump),
      chain ∈ validJumpsForF b checker dir fuel seq curR curC →
      ∃ suffix, chain = seq ++ suffix ∧ suffix ≠ []
        ∧ ∀ j ∈ suffix, b.isEmptyLocation j.row j.col = true
            ∧ b.isEmptyLocation j.killedRow j.killedCol = false := by
  intro fuel
  induction fuel with
  | zero => intro seq r c chain h; simp [validJumpsForF] at h
  | succ fuel ih =>
      intro seq r c chain h
      rcases List.mem_flatten.mp h with ⟨blk, hblk, hchain⟩
      rcases List.mem_map.mp hblk with ⟨d, _, rfl⟩
      by_cases hv : isValidJump b checker r c d.1 d.2 dir = true
      · by_cases haj :
          alreadyJumpedPiece seq ((r + d.1) / 2) ((c + d.2) / 2) = true
        · simp [hv, haj] at hchain
        · rw [Bool.not_eq_true] at haj
          simp only [hv, if_true, haj, Bool.false_eq_true, if_false] at hchain
          have hfacts := isValidJump_facts b checker r c d.1 d.2 dir hv
          rw [Int.add_comm d.1 r, Int.add_comm d.2 c] at hfacts
          have hjf : b.isEmptyLocation d.1 d.2 = true
              ∧ b.isEmptyLocation ((r + d.1) / 2) ((c + d.2) / 2) = false :=
            ⟨hfacts.2.1, hfacts.2.2⟩
          rcases List.mem_append.mp hchain with hL | hR
          · rcases ih (seq ++ [⟨(r + d.1) / 2, (c + d.2) / 2, d.1, d.2⟩])
                d.1 d.2 chain hL with ⟨suffix, heq, _, hall⟩
            refine ⟨⟨(r + d.1) / 2, (c + d.2) / 2, d.1, d.2⟩ :: suffix,
              by simpa [List.append_assoc] using heq, by simp, ?_⟩
            intro j hj
            rcases List.mem_cons.mp hj with rfl | hj2
            · exact hjf
            · exact hall j hj2
          · rw [List.mem_singleton.mp hR]
            refine ⟨[⟨(r + d.1) / 2, (c + d.2) / 2, d.1, d.2⟩], rfl,
              by simp, ?_⟩
            intro j hj
            rw [List.mem_singleton.mp hj]
            exact hjf
      · simp [hv] at hchain

/-- Chains inherit distinctness of captured squares: if the accumulated
sequence has no repeated captured square, neither has any returned
chain. -/
theorem validJumpsForF_nodup (b : Board) (checker : PieceData) (dir : Int) :
    ∀ (fuel : Nat) (seq : List Jump) (curR curC : Int),
      (seq.map killedSquare).Nodup →
      ∀ chain ∈ validJumpsForF b checker dir fuel seq curR curC,
        (chain.map killedSquare).Nodup := by
  intro fuel
  induction fuel with
  | zero => intro seq r c _ chain h; simp [validJumpsForF] at h
  | succ fuel ih =>
      intro seq r c hseq chain h
      rcases List.mem_flatten.mp h with ⟨blk, hblk, hchain⟩
      rcases List.mem_map.mp hblk with ⟨d, _, rfl⟩
      by_cases hv : isValidJump b checker r c d.1 d.2 dir = true
      · by_cases haj :
          alreadyJumpedPiece seq ((r + d.1) / 2) ((c + d.2) / 2) = true
        · simp [hv, haj] at hchain
        · rw [Bool.not_eq_true] at haj
          simp only [hv, if_true, haj, Bool.false_eq_true, if_false] at hchain
          have hnotmem : killedSquare ⟨(r + d.1) / 2, (c + d.2) / 2, d.1, d.2⟩
              ∉ List.map killedSquare seq := by
            intro hmem
            rcases List.mem_map.mp hmem with ⟨j', hj', hks⟩
            have : alreadyJumpedPiece seq ((r + d.1) / 2) ((c + d.2) / 2)
                = true := by
              simp only [alreadyJumpedPiece, List.any_eq_true]
              refine ⟨j', hj', ?_⟩
              simp only [killedSquare, Prod.mk.injEq] at hks
              simp [hks.1, hks.2]
            rw [haj] at this
            simp at this
          have hseq' : ((seq ++
              [(⟨(r + d.1) / 2, (c + d.2) / 2, d.1, d.2⟩ : Jump)]).map
              killedSquare).Nodup := by
            rw [List.map_append]
            refine List.Nodup.append hseq (by simp) ?_
            intro a ha hb
            simp only [List.map_cons, List.map_nil,
              List.mem_singleton] at hb
            rw [hb] at ha
            exact hnotmem ha
          rcases List.mem_append.mp hchain with hL | hR
          · exact ih _ d.1 d.2 hseq' chain hL
          · rw [List.mem_singleton.mp hR]
            exact hseq'
      · simp [hv] at hchain

/-- C6: the recursive jump search terminates.  When a recursive call is
made (valid jump, midpoint not already captured), the captured square is
an occupied grid square not yet in the accumulated sequence, so the count
of occupied not-yet-captured squares strictly decreases; and because the
board has finitely many occupied squares, any fuel of at least the grid
size gives the search's stable (terminal) value. -/
theorem C6_jump_search_terminates (b : Board) (checker : PieceData)
    (dir : Int) (jumpSeq : List Jump) (curRow curCol toRow toCol : Int)
    (h1 : isValidJump b checker curRow curCol toRow toCol dir = true)
    (h2 : alreadyJumpedPiece jumpSeq ((curRow + toRow) / 2)
      ((curCol + toCol) / 2) = false) :
    (∃ qid, lookupA b.grid
      ((curRow + toRow) / 2, (curCol + toCol) / 2) = some qid)
    ∧ remainingTargets b
        (jumpSeq ++ [⟨(curRow + toRow) / 2, (curCol + toCol) / 2,
          toRow, toCol⟩])
        < remainingTargets b jumpSeq
    ∧ ∀ n, b.grid.length ≤ n →
        validJumpsForF b checker dir n jumpSeq curRow curCol
          = validJumpsFor b checker dir jumpSeq curRow curCol := by
  have hocc :=
    mid_occupied_of_isValidJump b checker curRow curCol toRow toCol dir h1
  refine ⟨hocc, remainingTargets_decrease b jumpSeq _ hocc h2, ?_⟩
  intro n hn
  unfold validJumpsFor
  exact validJumpsForF_stable b checker dir n (b.grid.length + 1)
    jumpSeq curRow curCol
    (le_trans (remainingTargets_le_length b jumpSeq) hn)
    (le_trans (remainingTargets_le_length b jumpSeq) (Nat.le_succ _))

/-- C6 witness: the first jump of the double-jump board. -/
theorem C6_jump_search_terminates_witness :
    (∃ qid, lookupA board8b.grid
      (((2 : Int) + 4) / 2, ((3 : Int) + 5) / 2) = some qid)
    ∧ remainingTargets board8b
        ([] ++ [⟨((2 : Int) + 4) / 2, ((3 : Int) + 5) / 2, 4, 5⟩])
        < remainingTargets board8b []
    ∧ validJumpsForF board8b pieceB 1 5 [] 2 3
        = validJumpsFor board8b pieceB 1 [] 2 3 := by
  have h := C6_jump_search_terminates board8b pieceB 1 [] 2 3 4 5
    (by decide) (by decide)
  exact ⟨h.1, h.2.1, h.2.2 5 (by decide)⟩

/-- C4: each landing square with a valid first jump whose captured square
is new contributes both the terminal chain stopping at that landing and,
separately, every longer chain found by recursing from the landing; each
recursive chain is strictly longer than the terminal one, so the search
returns intermediate-stopping chains, not only maximal ones. -/
theorem C4_intermediate_chains (b : Board) (checker : PieceData) (dir : Int)
    (jumpSeq : List Jump) (curRow curCol toRow toCol : Int)
    (hd : (toRow, toCol) ∈ possibleDestinations curRow curCol)
    (hv : isValidJump b checker curRow curCol toRow toCol dir = true)
    (hnj : alreadyJumpedPiece jumpSeq ((curRow + toRow) / 2)
      ((curCol + toCol) / 2) = false) :
    (jumpSeq ++ [⟨(curRow + toRow) / 2, (curCol + toCol) / 2, toRow, toCol⟩])
      ∈ validJumpsFor b checker dir jumpSeq curRow curCol
    ∧ ∀ chain ∈ validJumpsFor b checker dir
        (jumpSeq ++ [⟨(curRow + toRow) / 2, (curCol + toCol) / 2,
          toRow, toCol⟩]) toRow toCol,
        chain ∈ validJumpsFor b checker dir jumpSeq curRow curCol
        ∧ jumpSeq.length + 1 < chain.length := by
  have hblock : (validJumpsForF b checker dir (b.grid.length)
        (jumpSeq ++ [⟨(curRow + toRow) / 2, (curCol + toCol) / 2,
          toRow, toCol⟩]) toRow toCol
      ++ [jumpSeq ++ [⟨(curRow + toRow) / 2, (curCol + toCol) / 2,
          toRow, toCol⟩]])
      ∈ (possibleDestinations curRow curCol).map (fun d =>
        if isValidJump b checker curRow curCol d.1 d.2 dir then
          let jumped : Jump :=
            ⟨(curRow + d.1) / 2, (curCol + d.2) / 2, d.1, d.2⟩
          if alreadyJumpedPiece jumpSeq jumped.killedRow jumped.killedCol then
            []
          else
            validJumpsForF b checker dir (b.grid.length)
              (jumpSeq ++ [jumped]) d.1 d.2
            ++ [jumpSeq ++ [jumped]]
        else []) := by
    refine List.mem_map.mpr ⟨(toRow, toCol), hd, ?_⟩
    simp [hv, hnj]
  constructor
  · refine List.mem_flatten.mpr ⟨_, hblock, ?_⟩
    exact List.mem_append_right _ (List.mem_singleton.mpr rfl)
  · intro chain hchain
    have hstable : validJumpsFor b checker dir
        (jumpSeq ++ [⟨(curRow + toRow) / 2, (curCol + toCol) / 2,
          toRow, toCol⟩]) toRow toCol
        = validJumpsForF b checker dir (b.grid.length)
          (jumpSeq ++ [⟨(curRow + toRow) / 2, (curCol + toCol) / 2,
            toRow, toCol⟩]) toRow toCol := by
      unfold validJumpsFor
      exact validJumpsForF_stable b checker dir (b.grid.length + 1)
        (b.grid.length) _ toRow toCol
        (le_trans (remainingTargets_le_length b _) (Nat.le_succ _))
        (remainingTargets_le_length b _)
    constructor
    · refine List.mem_flatten.mpr ⟨_, hblock, ?_⟩
      apply List.mem_append_left
      rw [hstable] at hchain
      exact hchain
    · rcases validJumpsForF_shape b checker dir (b.grid.length + 1)
          _ toRow toCol chain hchain with ⟨suffix, heq, hne, _⟩
      rw [heq, List.length_append, List.length_append]
      have : 0 < suffix.length := List.length_pos.mpr hne
      simp only [List.length_cons, List.length_singleton]
      omega

/-- C4 witness: on the double-jump board the first landing contributes the
one-jump chain and the strictly longer two-jump continuation. -/
theorem C4_intermediate_chains_witness :
    ([] ++ [⟨((2 : Int) + 4) / 2, ((3 : Int) + 5) / 2, 4, 5⟩])
      ∈ validJumpsFor board8b pieceB 1 [] 2 3
    ∧ ∀ chain ∈ validJumpsFor board8b pieceB 1
        ([] ++ [⟨((2 : Int) + 4) / 2, ((3 : Int) + 5) / 2, 4, 5⟩]) 4 5,
        chain ∈ validJumpsFor board8b pieceB 1 [] 2 3
        ∧ List.length ([] : List Jump) + 1 < chain.length :=
  C4_intermediate_chains board8b pieceB 1 [] 2 3 4 5
    (by decide) (by decide) (by decide)

/-- C5: within one chain returned by the jump search the same captured
square never appears twice. -/
theorem C5_no_repeated_capture (b : Board) (checker : PieceData) (dir : Int)
    (curR curC : Int) (chain : List Jump)
    (h : chain ∈ validJumpsFor b checker dir [] curR curC) :
    (chain.map killedSquare).Nodup :=
  validJumpsForF_nodup b checker dir (b.grid.length + 1) [] curR curC
    (by simp) chain h

/-- C5 witness: the two-jump chain of the double-jump board has distinct
captured squares. -/
theorem C5_no_repeated_capture_witness :
    (([⟨3, 4, 4, 5⟩, ⟨5, 6, 6, 7⟩] : List Jump).map killedSquare).Nodup :=
  C5_no_repeated_capture board8b pieceB 1 2 3
    [⟨3, 4, 4, 5⟩, ⟨5, 6, 6, 7⟩] (by decide)

theorem C10_promotion_ignores_king_status_witness :
    BEvent.promoteE (promoteSnap ⟨Color.red, true, 2, 1⟩)
      ∈ (board10.moveTo 0 3 1).2
    ∧ promoteSnap ⟨Color.red, true, 2, 1⟩ = ⟨Color.red, true, 2, 1⟩
    ∧ ∀ k : Bool, board10.canBeKing ⟨Color.red, k, 2, 1⟩ 3 1 = true :=
  C10_promotion_ignores_king_status board10 0 3 1 ⟨Color.red, true, 2, 1⟩
    (by decide) (by decide) (by decide) (by decide)

/-- C2: makeMove returns the invalid result whenever the piece's
direction differs from the turn's direction or the claimed destination
matches no candidate of validMovesFor; on that path the board (grid and
every checker's fields) is returned unchanged and no event is
dispatched. -/
theorem C2_invalid_move_rejected (b : Board) (pid : Nat) (p : PieceData)
    (turnDirection playerDirection toRow toCol : Int)
    (hp : lookupA b.heap pid = some p)
    (h : playerDirection ≠ turnDirection
      ∨ ∀ m ∈ validMovesFor b p playerDirection,
          ¬(m.to_row = toRow ∧ m.to_col = toCol)) :
    makeMove b pid turnDirection playerDirection toRow toCol
      = (none, b, []) := by
  have hram : ramificationsOfMove b p turnDirection playerDirection
      toRow toCol = none := by
    unfold ramificationsOfMove
    rcases h with h | h
    · rw [if_pos h]
    · by_cases hd : playerDirection ≠ turnDirection
      · rw [if_pos hd]
      · rw [if_neg hd, List.find?_eq_none]
        intro m hm
        simp only [Bool.and_eq_true, decide_eq_true_eq, not_and]
        intro hc hr
        exact h m hm ⟨hr, hc⟩
  unfold makeMove
  rw [hp]
  simp only [hram]

/-- C2 witness: a wrong-turn request leaves the concrete board untouched
and dispatches nothing. -/
theorem C2_invalid_move_rejected_witness :
    makeMove board8 0 (-1) 1 4 5 = (none, board8, []) :=
  C2_invalid_move_rejected board8 0 pieceB (-1) 1 4 5 (by decide)
    (Or.inl (by decide))

/-- Every destination of a valid move candidate reads empty on the board
the candidates were computed from. -/
theorem validMovesFor_dest_empty (b : Board) (p : PieceData) (dir : Int)
    (m : MoveCand) (hm : m ∈ validMovesFor b p dir) :
    b.isEmptyLocation m.to_row m.to_col = true := by
  unfold validMovesFor at hm
  simp only [List.mem_append] at hm
  rcases hm with (hf | hb) | hj
  · rcases List.mem_filterMap.mp hf with ⟨i, _, hfi⟩
    split at hfi
    case isTrue hcond =>
      cases hfi
      simp only [Bool.and_eq_true] at hcond
      exact hcond.2
    case isFalse => exact absurd hfi (by simp)
  · rcases List.mem_filterMap.mp hb with ⟨i, _, hfi⟩
    split at hfi
    case isTrue hcond =>
      cases hfi
      simp only [Bool.and_eq_true] at hcond
      exact hcond.1.2
    case isFalse => exact absurd hfi (by simp)
  · rcases List.mem_map.mp hj with ⟨chain, hchain, rfl⟩
    rcases validJumpsForF_shape b p dir (b.grid.length + 1) [] p.row p.col
        chain hchain with ⟨suffix, heq, hne, hall⟩
    have heq' : chain = suffix := heq
    subst heq'
    have hlast : chain.getLast? = some (chain.getLast hne) :=
      List.getLast?_eq_getLast chain hne
    have hfact := hall (chain.getLast hne) (List.getLast_mem hne)
    unfold collapseJumpSequence
    simp only [hlast, Option.getD_some]
    exact hfact.1

/-- The heap is untouched by the removal loop of makeMove (remove only
deletes grid entries). -/
theorem removeDeadCheckers_heap (l : List RemovedEntry) :
    ∀ b : Board, ((removeDeadCheckers b l).1).heap = b.heap := by
  induction l with
  | nil => intro b; rfl
  | cons e rest ih =>
      intro b
      unfold removeDeadCheckers
      cases hg : b.getCheckerAt e.row e.col with
      | none => exact ih b
      | some qid =>
          show ((removeDeadCheckers (b.remove qid).1 rest).1).heap = b.heap
          rw [ih]
          unfold Board.remove
          cases hq : lookupA b.heap qid with
          | none => rfl
          | some q => rfl

/-- A square that does not read empty yields a checker from
getCheckerAt. -/
theorem isEmptyLocation_false_getCheckerAt (b : Board) (r c : Int)
    (h : b.isEmptyLocation r c = false) :
    ∃ qid, b.getCheckerAt r c = some qid := by
  cases hg : b.getCheckerAt r c with
  | none =>
      rw [show b.isEmptyLocation r c = true from by
        simp [Board.isEmptyLocation, hg]] at h
      simp at h
  | some q => exact ⟨q, rfl⟩

/-- On a board satisfying the representation invariant, a square holding
a checker yields that checker's data. -/
theorem pieceDataAt_some_of_checkRep (b : Board) (r c : Int) (qid : Nat)
    (hrep : b.checkRepB = true) (hg : b.getCheckerAt r c = some qid) :
    ∃ q, pieceDataAt b r c = some q := by
  have hl : lookupA b.grid (r, c) = some qid := by
    unfold Board.getCheckerAt at hg
    by_cases hv : b.isValidLocation r c = true
    · rwa [if_pos hv] at hg
    · rw [if_neg hv] at hg
      simp at hg
  have hok := (checkRepB_iff b).mp hrep _ (lookupA_some_mem hl)
  rw [pieceEntryOK_iff] at hok
  rcases hok with ⟨q, hq, _, _⟩
  refine ⟨q, ?_⟩
  unfold pieceDataAt
  rw [hg]
  exact hq

/-- Every entry of a candidate's remove list names a square occupied on
the enumeration board, and carries the color and king flag of the checker
found there at enumeration time. -/
theorem validMovesFor_removed_entries (b : Board) (p : PieceData)
    (dir : Int) (hrep : b.checkRepB = true)
    (m : MoveCand) (hm : m ∈ validMovesFor b p dir) :
    ∀ e ∈ m.remove, ∃ q, pieceDataAt b e.row e.col = some q
      ∧ e.color = some q.color ∧ e.isKing = some q.isKing := by
  unfold validMovesFor at hm
  simp only [List.mem_append] at hm
  rcases hm with (hf | hb) | hj
  · rcases List.mem_filterMap.mp hf with ⟨i, _, hfi⟩
    split at hfi
    case isTrue =>
      cases hfi
      intro e he
      simp at he
    case isFalse => exact absurd hfi (by simp)
  · rcases List.mem_filterMap.mp hb with ⟨i, _, hfi⟩
    split at hfi
    case isTrue =>
      cases hfi
      intro e he
      simp at he
    case isFalse => exact absurd hfi (by simp)
  · rcases List.mem_map.mp hj with ⟨chain, hchain, rfl⟩
    rcases validJumpsForF_shape b p dir (b.grid.length + 1) [] p.row p.col
        chain hchain with ⟨suffix, heq, _, hall⟩
    have heq' : chain = suffix := heq
    subst heq'
    intro e he
    unfold collapseJumpSequence at he
    simp only [List.mem_map] at he
    rcases he with ⟨j, hj', rfl⟩
    have hjf := hall j hj'
    obtain ⟨qid, hq⟩ :=
      isEmptyLocation_false_getCheckerAt b _ _ hjf.2
    obtain ⟨q, hpd⟩ :=
      pieceDataAt_some_of_checkRep b _ _ qid hrep hq
    exact ⟨q, hpd, by simp [hpd], by simp [hpd]⟩

/-- C3: a successful makeMove records the origin as it was before the
move, the claimed destination, made king exactly when the piece was not a
king before and is one after, and the remove list of the chosen candidate,
whose every entry carries the captured square's occupant data (color and
king flag) as read before any removal. -/
theorem C3_makeMove_result (b : Board) (pid : Nat) (p : PieceData)
    (turnDirection playerDirection toRow toCol : Int)
    (res : MoveResult) (b' : Board) (evs : List BEvent)
    (hp : lookupA b.heap pid = some p)
    (hrep : b.checkRepB = true)
    (hmk : makeMove b pid turnDirection playerDirection toRow toCol
      = (some res, b', evs)) :
    res.from_row = p.row ∧ res.from_col = p.col
    ∧ res.to_row = toRow ∧ res.to_col = toCol
    ∧ (∃ pAfter, lookupA b'.heap pid = some pAfter
        ∧ res.made_king = (!p.isKing && pAfter.isKing))
    ∧ (∃ m, m ∈ validMovesFor b p playerDirection
        ∧ m.to_row = toRow ∧ m.to_col = toCol ∧ res.removed = m.remove)
    ∧ ∀ e ∈ res.removed, ∃ q, pieceDataAt b e.row e.col = some q
        ∧ e.color = some q.color ∧ e.isKing = some q.isKing := by
  unfold makeMove at hmk
  rw [hp] at hmk
  cases hram : ramificationsOfMove b p turnDirection playerDirection
      toRow toCol with
  | none =>
      simp only [hram] at hmk
      simp at hmk
  | some ram =>
      simp only [hram, Prod.mk.injEq, Option.some.injEq] at hmk
      obtain ⟨hres, hb', hevs⟩ := hmk
      have hfind : (validMovesFor b p playerDirection).find? (fun m =>
          decide (m.to_col = toCol) && decide (m.to_row = toRow))
          = some ram := by
        unfold ramificationsOfMove at hram
        by_cases hd : playerDirection ≠ turnDirection
        · rw [if_pos hd] at hram
          exact absurd hram (by simp)
        · rwa [if_neg hd] at hram
      have hmem := List.mem_of_find?_eq_some hfind
      have hpred := List.find?_some hfind
      simp only [Bool.and_eq_true, decide_eq_true_eq] at hpred
      have hempty : b.isEmptyLocation ram.to_row ram.to_col = true :=
        validMovesFor_dest_empty b p playerDirection ram hmem
      have hshape := moveTo_shape b pid ram.to_row ram.to_col p hempty hp
      have hheap : lookupA ((b.moveTo pid ram.to_row ram.to_col).1).heap pid
          = some (finalSnap b p ram.to_row ram.to_col) := by
        rw [hshape.1]
        exact lookupA_setA_self _ _ _
      subst hres
      refine ⟨rfl, rfl, hpred.2, hpred.1,
        ⟨finalSnap b p ram.to_row ram.to_col, ?_, ?_⟩,
        ⟨ram, hmem, hpred.2, hpred.1, rfl⟩,
        validMovesFor_removed_entries b p playerDirection hrep ram hmem⟩
      · rw [← hb', removeDeadCheckers_heap]
        exact hheap
      · show (!p.isKing
            && ((lookupA ((b.moveTo pid ram.to_row ram.to_col).1).heap
              pid).map PieceData.isKing).getD false)
          = (!p.isKing && (finalSnap b p ram.to_row ram.to_col).isKing)
        rw [hheap]
        rfl

/-- C3 witness: the concrete jump from (2, 3) over (3, 4) to (4, 5). -/
theorem C3_makeMove_result_witness :
    res3.from_row = pieceB.row ∧ res3.from_col = pieceB.col
    ∧ res3.to_row = 4 ∧ res3.to_col = 5
    ∧ (∃ pAfter, lookupA bAfter3.heap 0 = some pAfter
        ∧ res3.made_king = (!pieceB.isKing && pAfter.isKing))
    ∧ (∃ m, m ∈ validMovesFor board8 pieceB 1
        ∧ m.to_row = 4 ∧ m.to_col = 5 ∧ res3.removed = m.remove)
    ∧ ∀ e ∈ res3.removed, ∃ q, pieceDataAt board8 e.row e.col = some q
        ∧ e.color = some q.color ∧ e.isKing = some q.isKing :=
  C3_makeMove_result board8 0 pieceB 1 1 4 5 res3 bAfter3 evs3
    (by decide) (by decide) (by decide)

end Checkers
